import Mathlib

/-!
Shallow embedding of the key-state reconciliation and caching engine of the
license-key bot (source file `src/unnamed/part_000`).

Timestamps are epoch milliseconds modelled as `Nat`.  Firestore document data
is modelled with `Option` fields where the JavaScript code distinguishes
`null`/`undefined`/missing from a present value; JavaScript truthiness on a
string field (`!data.userId`) is `optTruthy`.  Store reads that can reject are
modelled by per-query failure flags on the `Store`; a rejected promise becomes
an `Except.error`.
-/

set_option autoImplicit false

namespace VoraHub

/-- `CACHE_DURATION = 300000` (hard cache lifetime, ms). -/
def CACHE_DURATION : Nat := 300000

/-- `CACHE_SOFT_REFRESH = 60000` (soft background-refresh window, ms). -/
def CACHE_SOFT_REFRESH : Nat := 60000

/-- `BATCH_LIMIT = 450` (Firestore batch chunk ceiling). -/
def BATCH_LIMIT : Nat := 450

/-- A document of the `keys` collection (a Key Record).  The document id (the
key string) is kept outside, as in Firestore. -/
structure KeyData where
  used : Bool := false
  alreadyRedeem : Bool := false
  userId : Option String := none
  usedByDiscord : Option String := none
  hwid : String := ""
  hwidLimit : Nat := 1
  usedAt : Option Nat := none
  expiresAt : Option Nat := none
  createdAt : Option Nat := none
  whitelisted : Bool := false
  deriving DecidableEq, Repr

/-- A document of the `whitelist` collection (a Whitelist Grant); only the
`key` field (the linked key string) is read by the reconciliation engine. -/
structure WhitelistGrant where
  key : Option String := none
  deriving DecidableEq, Repr

/-- A `userKeyCache` entry: `{ keys, expires, lastRefresh }`. -/
structure CacheEntry where
  keys : List String
  expires : Nat
  lastRefresh : Nat
  deriving DecidableEq, Repr

/-- The fields an `update` closure may write on a key document
(`userId`, `usedByDiscord`, `whitelisted`); `none` = field not updated. -/
structure KeyUpdates where
  userId : Option String := none
  usedByDiscord : Option String := none
  whitelisted : Option Bool := none
  deriving DecidableEq, Repr

/-- A deferred batch operation pushed onto `updateOperations`. -/
inductive BatchOp where
  | updateKey (docId : String) (updates : KeyUpdates)
  | setKey (docId : String) (data : KeyData)
  deriving DecidableEq, Repr

/-- Errors thrown by store interactions (a rejected Firestore promise). -/
inductive Err where
  | storeFailure
  deriving DecidableEq, Repr

/-- The document store, with per-read failure flags modelling rejected
promises of the corresponding query. -/
structure Store where
  keys : List (String × KeyData) := []
  whitelist : List (String × WhitelistGrant) := []
  failIdentityQuery : Bool := false
  failWhitelistGet : Bool := false
  failFallbackQuery : Bool := false
  failKeyDocGet : Bool := false
  failBatchCommit : Bool := false
  deriving DecidableEq, Repr

/-- The process-local cache, `userKeyCache`. -/
abbrev Cache := List (String × CacheEntry)

/-- JavaScript truthiness of an optional string field:
`undefined`/`null` and the empty string are falsy. -/
def optTruthy : Option String → Bool
  | none => false
  | some s => s ≠ ""

/-- Association-list lookup by document id (first match). -/
def alookup {β : Type} (l : List (String × β)) (k : String) : Option β :=
  match l with
  | [] => none
  | (a, b) :: t => if a = k then some b else alookup t k

/-- `Collection.set`: replace the entry for `k` with `e`. -/
def cacheSet (c : Cache) (k : String) (e : CacheEntry) : Cache :=
  (k, e) :: c.filter (fun p => p.1 ≠ k)

/-- `Set.add` on the ordered key set: append if absent. -/
def addKey (ks : List String) (k : String) : List String :=
  if k ∈ ks then ks else ks ++ [k]

/-- `discordTag.includes('#') ? discordTag.split('#')[0] : discordTag`:
the prefix before the first `'#'` when one occurs (computed on the
character list so it evaluates by `decide`). -/
def usernameOf (tag : String) : String :=
  if tag.toList.contains '#' then ⟨tag.toList.takeWhile (· ≠ '#')⟩ else tag

/-- `isKeyExpired` on present document data:
whitelisted keys are never expired; a `null`/`undefined` `expiresAt` is
permanent; otherwise the JS `expiryTime && expiryTime < Date.now()` is truthy
iff the millis value is nonzero and in the past. -/
def isKeyExpiredD (d : KeyData) (now : Nat) : Bool :=
  if d.whitelisted then false
  else
    match d.expiresAt with
    | none => false
    | some t => t ≠ 0 && t < now

/-- `isKeyExpired(keyData)` including the missing-document case. -/
def isKeyExpired (d : Option KeyData) (now : Nat) : Bool :=
  match d with
  | none => true
  | some d => isKeyExpiredD d now

/-- Processing of the `userIdSnapshot` docs: include non-expired
non-whitelisted keys (healing a missing `usedByDiscord`), and include
whitelisted or permanent keys as-is. -/
def processIdDocs (tag : String) (now : Nat) :
    List (String × KeyData) → List String → List BatchOp →
    List String × List BatchOp
  | [], ks, ops => (ks, ops)
  | (kId, d) :: rest, ks, ops =>
    if !d.whitelisted && !isKeyExpiredD d now then
      processIdDocs tag now rest (addKey ks kId)
        (if !optTruthy d.usedByDiscord then
          ops ++ [BatchOp.updateKey kId { usedByDiscord := some tag }]
        else ops)
    else if d.whitelisted || d.expiresAt = none then
      processIdDocs tag now rest (addKey ks kId) ops
    else
      processIdDocs tag now rest ks ops

/-- Processing of one fallback snapshot (`usedByDiscord`-keyed docs): skip ids
already in the set, include non-expired keys, and queue a `userId` migration
when the record lacks one. -/
def processFallbackDocs (uid : String) (now : Nat) :
    List (String × KeyData) → List String → List BatchOp →
    List String × List BatchOp
  | [], ks, ops => (ks, ops)
  | (kId, d) :: rest, ks, ops =>
    if kId ∈ ks then processFallbackDocs uid now rest ks ops
    else if !isKeyExpiredD d now then
      processFallbackDocs uid now rest (addKey ks kId)
        (if !optTruthy d.userId then
          ops ++ [BatchOp.updateKey kId { userId := some uid }]
        else ops)
    else
      processFallbackDocs uid now rest ks ops

/-- The `where('userId','==',userId)` snapshot. -/
def identityDocs (s : Store) (uid : String) : List (String × KeyData) :=
  s.keys.filter (fun p => p.2.userId = some uid)

/-- The `where('usedByDiscord','==',v).limit(5)` snapshot. -/
def tagDocs (s : Store) (v : String) : List (String × KeyData) :=
  (s.keys.filter (fun p => p.2.usedByDiscord = some v)).take 5

/-- Both fallback snapshots processed in order (full tag first, then the
bare username). -/
def fallbackPhase (s : Store) (uid tag : String) (now : Nat)
    (ks : List String) (ops : List BatchOp) : List String × List BatchOp :=
  processFallbackDocs uid now (tagDocs s (usernameOf tag))
    (processFallbackDocs uid now (tagDocs s tag) ks ops).1
    (processFallbackDocs uid now (tagDocs s tag) ks ops).2

/-- The key document materialized for a dangling whitelist grant. -/
def whitelistKeyData (uid tag : String) (now : Nat) : KeyData :=
  { used := false
    alreadyRedeem := true
    userId := some uid
    usedByDiscord := some tag
    hwid := ""
    hwidLimit := 1
    usedAt := some now
    expiresAt := none
    createdAt := some now
    whitelisted := true }

/-- The self-heal updates for an existing whitelist-linked key document. -/
def whitelistHealUpdates (uid tag : String) (kd : KeyData) : KeyUpdates :=
  { userId := if optTruthy kd.userId then none else some uid
    usedByDiscord := if optTruthy kd.usedByDiscord then none else some tag
    whitelisted := if kd.whitelisted then none else some true }

/-- Whether a `KeyUpdates` value carries at least one field
(`Object.keys(updates).length > 0`). -/
def KeyUpdates.nonempty (u : KeyUpdates) : Bool :=
  u.userId.isSome || u.usedByDiscord.isSome || u.whitelisted.isSome

/-- Whether the whitelist branch will fetch the linked key document:
a grant exists, its `key` field is truthy, and the key is not already in the
result set. -/
def needsKeyDoc (s : Store) (uid : String) (ks : List String) : Bool :=
  match alookup s.whitelist uid with
  | none => false
  | some g =>
    match g.key with
    | none => false
    | some wk => wk ≠ "" && wk ∉ ks

/-- The whitelist branch of `refreshUserKeys` (pure part, after the linked
key document has been read): add the grant's key and queue the create or the
self-heal update. -/
def whitelistPhase (s : Store) (uid tag : String) (now : Nat)
    (ks : List String) (ops : List BatchOp) : List String × List BatchOp :=
  match alookup s.whitelist uid with
  | none => (ks, ops)
  | some g =>
    match g.key with
    | none => (ks, ops)
    | some wk =>
      if wk ≠ "" ∧ wk ∉ ks then
        match alookup s.keys wk with
        | none => (ks ++ [wk], ops ++ [BatchOp.setKey wk (whitelistKeyData uid tag now)])
        | some kd =>
          if (whitelistHealUpdates uid tag kd).nonempty then
            (ks ++ [wk], ops ++ [BatchOp.updateKey wk (whitelistHealUpdates uid tag kd)])
          else (ks ++ [wk], ops)
      else (ks, ops)

/-- The outcome of one `refreshUserKeys` call: the returned (or thrown)
value, the cache afterwards, the queued batch operations, and the number of
store round-trips performed (each `Promise.all` of parallel reads, each
single read, and the batch commit count as one round-trip). -/
structure RefreshResult where
  result : Except Err (List String)
  cache : Cache
  ops : List BatchOp
  roundTrips : Nat
  deriving Repr

/-- The key set and queued batch operations computed by a (successful)
`refreshUserKeys` run: the identity-keyed snapshot, then (only when the set
is still empty and the call is not a background refresh) the alias fallback
snapshots, then the whitelist-grant branch. -/
def refreshCompute (s : Store) (uid tag : String) (isBackground : Bool)
    (now : Nat) : List String × List BatchOp :=
  let idOut := processIdDocs tag now (identityDocs s uid) [] []
  let fbOut :=
    if idOut.1.isEmpty && !isBackground then
      fallbackPhase s uid tag now idOut.1 idOut.2
    else idOut
  whitelistPhase s uid tag now fbOut.1 fbOut.2

/-- `refreshUserKeys(userId, discordTag, isBackground)`. -/
def refreshUserKeys (s : Store) (uid tag : String) (isBackground : Bool)
    (now : Nat) (cache : Cache) : RefreshResult :=
  if s.failIdentityQuery || s.failWhitelistGet then
    { result := .error .storeFailure, cache := cache, ops := [], roundTrips := 1 }
  else
    let idOut := processIdDocs tag now (identityDocs s uid) [] []
    let fb := idOut.1.isEmpty && !isBackground
    if fb && s.failFallbackQuery then
      { result := .error .storeFailure, cache := cache, ops := [], roundTrips := 2 }
    else
      let fbOut := if fb then fallbackPhase s uid tag now idOut.1 idOut.2 else idOut
      let rt1 := if fb then 2 else 1
      if needsKeyDoc s uid fbOut.1 && s.failKeyDocGet then
        { result := .error .storeFailure, cache := cache, ops := [], roundTrips := rt1 + 1 }
      else
        let wlOut := whitelistPhase s uid tag now fbOut.1 fbOut.2
        let rt2 := rt1 + (if needsKeyDoc s uid fbOut.1 then 1 else 0)
        if !wlOut.2.isEmpty && s.failBatchCommit then
          { result := .error .storeFailure, cache := cache, ops := [], roundTrips := rt2 + 1 }
        else
          { result := .ok wlOut.1
            cache := cacheSet cache uid
              { keys := wlOut.1, expires := now + CACHE_DURATION, lastRefresh := now }
            ops := wlOut.2
            roundTrips := rt2 + (if wlOut.2.isEmpty then 0 else 1) }

/-- The outcome of one `getUserActiveKeys` call.  `bgTriggered` records
whether a fire-and-forget background refresh was spawned (its I/O happens
outside this call). -/
structure GetKeysResult where
  result : Except Err (List String)
  cache : Cache
  roundTrips : Nat
  bgTriggered : Bool
  deriving Repr

/-- The synchronous-refresh path of `getUserActiveKeys`. -/
def refreshedGet (s : Store) (uid tag : String) (now : Nat) (cache : Cache) :
    GetKeysResult :=
  { result := (refreshUserKeys s uid tag false now cache).result
    cache := (refreshUserKeys s uid tag false now cache).cache
    roundTrips := (refreshUserKeys s uid tag false now cache).roundTrips
    bgTriggered := false }

/-- `getUserActiveKeys(userId, discordTag, forceRefresh)`. -/
def getUserActiveKeys (s : Store) (uid tag : String) (forceRefresh : Bool)
    (now : Nat) (cache : Cache) : GetKeysResult :=
  if forceRefresh then refreshedGet s uid tag now cache
  else
    match alookup cache uid with
    | some cached =>
      if now < cached.expires then
        { result := .ok cached.keys
          cache := cache
          roundTrips := 0
          bgTriggered := cached.lastRefresh ≠ 0 && CACHE_SOFT_REFRESH < now - cached.lastRefresh }
      else refreshedGet s uid tag now cache
    | none => refreshedGet s uid tag now cache

/-- The outcome of one `refreshUserKeysBackground` call: the cache and
in-flight queue afterwards, whether a refresh actually ran, and whether an
error was caught and logged (never rethrown). -/
structure BgOut where
  cache : Cache
  queue : List String
  started : Bool
  errorLogged : Bool
  deriving DecidableEq, Repr

/-- `refreshUserKeysBackground(userId, discordTag)`: skip when already in
flight, otherwise mark in flight, refresh with `isBackground = true`,
swallow any error and always release the marker. -/
def refreshUserKeysBackground (s : Store) (uid tag : String) (now : Nat)
    (cache : Cache) (queue : List String) : BgOut :=
  if uid ∈ queue then
    { cache := cache, queue := queue, started := false, errorLogged := false }
  else
    let q1 := queue ++ [uid]
    let r := refreshUserKeys s uid tag true now cache
    { cache := r.cache
      queue := q1.erase uid
      started := true
      errorLogged := match r.result with | .error _ => true | .ok _ => false }

/-- The chunking loop of `safeBatchCommit`: fill the current batch, push it
whenever it reaches `BATCH_LIMIT`, and push a final partial batch. -/
def safeBatchChunks {α : Type} (operations : List α) : List (List α) :=
  let step := fun (acc : List (List α) × List α × Nat) (op : α) =>
    let (batches, cur, count) := acc
    let cur' := cur ++ [op]
    let count' := count + 1
    if BATCH_LIMIT ≤ count' then (batches ++ [cur'], ([] : List α), 0)
    else (batches, cur', count')
  let (batches, cur, count) := operations.foldl step ([], [], 0)
  if 0 < count then batches ++ [cur] else batches

/-- `safeBatchCommit(operations)`: an empty list returns immediately with
zero batches; otherwise it commits the chunks, logs
`operations.length` operations in `batches.length` batch(es), and returns the
batch count. -/
def safeBatchCommitReport {α : Type} (operations : List α) :
    Nat × Nat :=
  if operations.length = 0 then (0, 0)
  else ((safeBatchChunks operations).length, operations.length)

/-- The holder name shown by the `redeem_submit` handler for an already-bound
key: `activeData.usedByDiscord || activeData.userId || "Unknown"`. -/
def redeemBoundHolder (d : KeyData) : String :=
  match d.usedByDiscord with
  | some s => if s = "" then (match d.userId with
      | some u => if u = "" then "Unknown" else u
      | none => "Unknown") else s
  | none =>
    match d.userId with
    | some u => if u = "" then "Unknown" else u
    | none => "Unknown"

/-- The full user-visible message for an already-bound key. -/
def redeemBoundMessage (d : KeyData) : String :=
  "❌ Key sudah dipakai oleh **" ++ redeemBoundHolder d ++ "**!"

/-- Example record: non-whitelisted, expired at 500 ms. -/
def c1CexData : KeyData := { userId := some "U1", expiresAt := some 500 }

/-- Example store: the expired record is also linked by a Whitelist Grant. -/
def c1CexStore : Store :=
  { keys := [("KX", c1CexData)], whitelist := [("U1", { key := some "KX" })] }

/-- Example record: whitelisted with a past expiry. -/
def c1AmWlData : KeyData :=
  { userId := some "UA", whitelisted := true, expiresAt := some 5 }

/-- Example record: non-whitelisted with a nonzero past expiry. -/
def c1AmExpData : KeyData := { userId := some "UA", expiresAt := some 5 }

/-- Example store holding both records above for the same identity. -/
def c1AmStore : Store :=
  { keys := [("KW1", c1AmWlData), ("KE1", c1AmExpData)] }

/-- Example record: bound to an identity, never expiring. -/
def c2CexIdData : KeyData := { userId := some "U2" }

/-- Example record: alias-bound only, never expiring. -/
def c2CexTagData : KeyData := { usedByDiscord := some "bob#1" }

/-- Example store where the identity query already finds a key, so the alias
fallback never runs. -/
def c2CexStore : Store :=
  { keys := [("K1", c2CexIdData), ("K2", c2CexTagData)] }

/-- Example record found only through the alias fallback (full tag). -/
def c2WitData : KeyData := { usedByDiscord := some "carol#1" }

/-- Example record found only through the alias fallback (bare username). -/
def c2WitData2 : KeyData := { usedByDiscord := some "carol" }

/-- Example store with no identity-bound records at all. -/
def c2WitStore : Store := { keys := [("KW", c2WitData), ("KV", c2WitData2)] }

end VoraHub

namespace VoraHub

theorem mem_addKey_self (ks : List String) (k : String) : k ∈ addKey ks k := by
  unfold addKey
  split
  · assumption
  · simp

theorem mem_addKey_of_mem {ks : List String} {k : String} (k' : String)
    (h : k ∈ ks) : k ∈ addKey ks k' := by
  unfold addKey
  split
  · exact h
  · exact List.mem_append_left _ h

theorem not_mem_addKey {ks : List String} {k k' : String}
    (h : k ∉ ks) (hne : k ≠ k') : k ∉ addKey ks k' := by
  unfold addKey
  split
  · exact h
  · intro hm
    rcases List.mem_append.mp hm with h1 | h1
    · exact h h1
    · exact hne (by simpa using h1)

theorem mem_addKey_cases {ks : List String} {k k' : String}
    (h : k ∈ addKey ks k') : k ∈ ks ∨ k = k' := by
  unfold addKey at h
  split at h
  · exact Or.inl h
  · rcases List.mem_append.mp h with h1 | h1
    · exact Or.inl h1
    · exact Or.inr (by simpa using h1)

theorem processIdDocs_keys_mono (tag : String) (now : Nat)
    (docs : List (String × KeyData)) :
    ∀ ks ops k, k ∈ ks → k ∈ (processIdDocs tag now docs ks ops).1 := by
  induction docs with
  | nil => intro ks ops k h; simpa [processIdDocs] using h
  | cons hd rest ih =>
    intro ks ops k h
    obtain ⟨kId, d⟩ := hd
    simp only [processIdDocs]
    split
    · exact ih _ _ _ (mem_addKey_of_mem _ h)
    · split
      · exact ih _ _ _ (mem_addKey_of_mem _ h)
      · exact ih _ _ _ h

theorem processIdDocs_ops_mono (tag : String) (now : Nat)
    (docs : List (String × KeyData)) :
    ∀ ks ops op, op ∈ ops → op ∈ (processIdDocs tag now docs ks ops).2 := by
  induction docs with
  | nil => intro ks ops op h; simpa [processIdDocs] using h
  | cons hd rest ih =>
    intro ks ops op h
    obtain ⟨kId, d⟩ := hd
    simp only [processIdDocs]
    split
    · refine ih _ _ _ ?_
      split
      · exact List.mem_append_left _ h
      · exact h
    · split
      · exact ih _ _ _ h
      · exact ih _ _ _ h

theorem processIdDocs_keys_subset (tag : String) (now : Nat)
    (docs : List (String × KeyData)) :
    ∀ ks ops k, k ∈ (processIdDocs tag now docs ks ops).1 →
      k ∈ ks ∨ k ∈ docs.map Prod.fst := by
  induction docs with
  | nil => intro ks ops k h; exact Or.inl (by simpa [processIdDocs] using h)
  | cons hd rest ih =>
    intro ks ops k h
    obtain ⟨kId, d⟩ := hd
    simp only [processIdDocs] at h
    have step : k ∈ addKey ks kId ∨ k ∈ rest.map Prod.fst → k ∈ ks ∨ k ∈ ((kId, d) :: rest).map Prod.fst := by
      intro hc
      rcases hc with hc | hc
      · rcases mem_addKey_cases hc with h1 | h1
        · exact Or.inl h1
        · exact Or.inr (by simp [h1])
      · exact Or.inr (by simp [hc])
    split at h
    · exact step (ih _ _ _ h)
    · split at h
      · exact step (ih _ _ _ h)
      · rcases ih _ _ _ h with h1 | h1
        · exact Or.inl h1
        · exact Or.inr (by simp [h1])

/-- A doc that is whitelisted or not expired is always included by the
identity-snapshot processing. -/
theorem processIdDocs_mem_incl (tag : String) (now : Nat)
    (docs : List (String × KeyData)) :
    ∀ ks ops k d, (k, d) ∈ docs →
      (d.whitelisted = true ∨ isKeyExpiredD d now = false) →
      k ∈ (processIdDocs tag now docs ks ops).1 := by
  induction docs with
  | nil => intro ks ops k d h _; simp at h
  | cons hd rest ih =>
    intro ks ops k d h hcond
    obtain ⟨kId, d0⟩ := hd
    rcases List.mem_cons.mp h with h1 | h1
    · obtain ⟨hk, hd0⟩ := Prod.mk.injEq .. ▸ h1
      subst hk hd0
      simp only [processIdDocs]
      split
      · exact processIdDocs_keys_mono _ _ _ _ _ _ (mem_addKey_self _ _)
      · rename_i hsplit
        split
        · exact processIdDocs_keys_mono _ _ _ _ _ _ (mem_addKey_self _ _)
        · rename_i hsplit2
          exfalso
          rcases hcond with hw | he
          · exact hsplit2 (by simp [hw])
          · cases hwl : d.whitelisted with
            | true => exact hsplit2 (by simp [hwl])
            | false => exact hsplit (by simp [hwl, he])
    · simp only [processIdDocs]
      split
      · exact ih _ _ _ _ h1 hcond
      · split
        · exact ih _ _ _ _ h1 hcond
        · exact ih _ _ _ _ h1 hcond

/-- A key all of whose docs are non-whitelisted, expired, and carry a non-null
expiry is never added by the identity-snapshot processing. -/
theorem processIdDocs_not_mem (tag : String) (now : Nat)
    (docs : List (String × KeyData)) :
    ∀ ks ops k, k ∉ ks →
      (∀ d, (k, d) ∈ docs →
        d.whitelisted = false ∧ isKeyExpiredD d now = true ∧ d.expiresAt ≠ none) →
      k ∉ (processIdDocs tag now docs ks ops).1 := by
  induction docs with
  | nil => intro ks ops k h _; simpa [processIdDocs] using h
  | cons hd rest ih =>
    intro ks ops k h hall
    obtain ⟨kId, d0⟩ := hd
    simp only [processIdDocs]
    by_cases hk : kId = k
    · subst hk
      have h0 := hall d0 (List.mem_cons_self _ _)
      rw [if_neg (by simp [h0.1, h0.2.1]), if_neg (by simp [h0.1, h0.2.2])]
      exact ih _ _ _ h (fun d hd => hall d (List.mem_cons_of_mem _ hd))
    · have hnotadd : k ∉ addKey ks kId := not_mem_addKey h (fun he => hk he.symm)
      have hrest : ∀ d, (k, d) ∈ rest →
          d.whitelisted = false ∧ isKeyExpiredD d now = true ∧ d.expiresAt ≠ none :=
        fun d hd => hall d (List.mem_cons_of_mem _ hd)
      split
      · exact ih _ _ _ hnotadd hrest
      · split
        · exact ih _ _ _ hnotadd hrest
        · exact ih _ _ _ h hrest

end VoraHub

namespace VoraHub

theorem processFallbackDocs_keys_mono (uid : String) (now : Nat)
    (docs : List (String × KeyData)) :
    ∀ ks ops k, k ∈ ks → k ∈ (processFallbackDocs uid now docs ks ops).1 := by
  induction docs with
  | nil => intro ks ops k h; simpa [processFallbackDocs] using h
  | cons hd rest ih =>
    intro ks ops k h
    obtain ⟨kId, d⟩ := hd
    simp only [processFallbackDocs]
    split
    · exact ih _ _ _ h
    · split
      · exact ih _ _ _ (mem_addKey_of_mem _ h)
      · exact ih _ _ _ h

theorem processFallbackDocs_ops_mono (uid : String) (now : Nat)
    (docs : List (String × KeyData)) :
    ∀ ks ops op, op ∈ ops → op ∈ (processFallbackDocs uid now docs ks ops).2 := by
  induction docs with
  | nil => intro ks ops op h; simpa [processFallbackDocs] using h
  | cons hd rest ih =>
    intro ks ops op h
    obtain ⟨kId, d⟩ := hd
    simp only [processFallbackDocs]
    split
    · exact ih _ _ _ h
    · split
      · refine ih _ _ _ ?_
        split
        · exact List.mem_append_left _ h
        · exact h
      · exact ih _ _ _ h

theorem processFallbackDocs_keys_subset (uid : String) (now : Nat)
    (docs : List (String × KeyData)) :
    ∀ ks ops k, k ∈ (processFallbackDocs uid now docs ks ops).1 →
      k ∈ ks ∨ k ∈ docs.map Prod.fst := by
  induction docs with
  | nil => intro ks ops k h; exact Or.inl (by simpa [processFallbackDocs] using h)
  | cons hd rest ih =>
    intro ks ops k h
    obtain ⟨kId, d⟩ := hd
    simp only [processFallbackDocs] at h
    have step : k ∈ addKey ks kId ∨ k ∈ rest.map Prod.fst →
        k ∈ ks ∨ k ∈ ((kId, d) :: rest).map Prod.fst := by
      intro hc
      rcases hc with hc | hc
      · rcases mem_addKey_cases hc with h1 | h1
        · exact Or.inl h1
        · exact Or.inr (by simp [h1])
      · exact Or.inr (by simp [hc])
    split at h
    · rcases ih _ _ _ h with h1 | h1
      · exact Or.inl h1
      · exact Or.inr (by simp [h1])
    · split at h
      · exact step (ih _ _ _ h)
      · rcases ih _ _ _ h with h1 | h1
        · exact Or.inl h1
        · exact Or.inr (by simp [h1])

/-- A non-expired doc of a fallback snapshot always ends up in the key set. -/
theorem processFallbackDocs_mem_incl (uid : String) (now : Nat)
    (docs : List (String × KeyData)) :
    ∀ ks ops k d, (k, d) ∈ docs → isKeyExpiredD d now = false →
      k ∈ (processFallbackDocs uid now docs ks ops).1 := by
  induction docs with
  | nil => intro ks ops k d h _; simp at h
  | cons hd rest ih =>
    intro ks ops k d h hexp
    obtain ⟨kId, d0⟩ := hd
    rcases List.mem_cons.mp h with h1 | h1
    · obtain ⟨hk, hd0⟩ := Prod.mk.injEq .. ▸ h1
      subst hk hd0
      simp only [processFallbackDocs]
      split
      · rename_i hin
        exact processFallbackDocs_keys_mono _ _ _ _ _ _ hin
      · rw [if_pos (by simp [hexp])]
        exact processFallbackDocs_keys_mono _ _ _ _ _ _ (mem_addKey_self _ _)
    · simp only [processFallbackDocs]
      split
      · exact ih _ _ _ _ h1 hexp
      · split
        · exact ih _ _ _ _ h1 hexp
        · exact ih _ _ _ _ h1 hexp

/-- A key all of whose docs in a fallback snapshot are expired, and which is
not already present, is never added by the fallback processing. -/
theorem processFallbackDocs_not_mem (uid : String) (now : Nat)
    (docs : List (String × KeyData)) :
    ∀ ks ops k, k ∉ ks →
      (∀ d, (k, d) ∈ docs → isKeyExpiredD d now = true) →
      k ∉ (processFallbackDocs uid now docs ks ops).1 := by
  induction docs with
  | nil => intro ks ops k h _; simpa [processFallbackDocs] using h
  | cons hd rest ih =>
    intro ks ops k h hall
    obtain ⟨kId, d0⟩ := hd
    simp only [processFallbackDocs]
    by_cases hk : kId = k
    · subst hk
      have h0 := hall d0 (List.mem_cons_self _ _)
      rw [if_neg h, if_neg (by simp [h0])]
      exact ih _ _ _ h (fun d hd => hall d (List.mem_cons_of_mem _ hd))
    · have hnotadd : k ∉ addKey ks kId := not_mem_addKey h (fun he => hk he.symm)
      have hrest : ∀ d, (k, d) ∈ rest → isKeyExpiredD d now = true :=
        fun d hd => hall d (List.mem_cons_of_mem _ hd)
      split
      · exact ih _ _ _ h hrest
      · split
        · exact ih _ _ _ hnotadd hrest
        · exact ih _ _ _ h hrest

/-- The self-heal `userId`-migration update is queued for a non-expired,
`userId`-less fallback doc (ids in the snapshot assumed distinct, as Firestore
document ids are). -/
theorem processFallbackDocs_op (uid : String) (now : Nat)
    (docs : List (String × KeyData)) :
    ∀ ks ops k d, (docs.map Prod.fst).Nodup → (k, d) ∈ docs → k ∉ ks →
      isKeyExpiredD d now = false → optTruthy d.userId = false →
      BatchOp.updateKey k { userId := some uid } ∈
        (processFallbackDocs uid now docs ks ops).2 := by
  induction docs with
  | nil => intro ks ops k d _ h _ _ _; simp at h
  | cons hd rest ih =>
    intro ks ops k d hnd h hks hexp huid
    obtain ⟨kId, d0⟩ := hd
    rcases List.mem_cons.mp h with h1 | h1
    · obtain ⟨hk, hd0⟩ := Prod.mk.injEq .. ▸ h1
      subst hk hd0
      simp only [processFallbackDocs]
      rw [if_neg hks, if_pos (by simp [hexp])]
      refine processFallbackDocs_ops_mono _ _ _ _ _ _ ?_
      rw [if_pos (by simp [huid])]
      exact List.mem_append_right _ (by simp)
    · have hne : kId ≠ k := by
        intro he
        subst he
        have : kId ∉ rest.map Prod.fst := (List.nodup_cons.mp (by simpa using hnd)).1
        exact this (List.mem_map.mpr ⟨(kId, d), h1, rfl⟩)
      have hnd' : (rest.map Prod.fst).Nodup := (List.nodup_cons.mp (by simpa using hnd)).2
      simp only [processFallbackDocs]
      split
      · exact ih _ _ _ _ hnd' h1 hks hexp huid
      · split
        · exact ih _ _ _ _ hnd' h1 (not_mem_addKey hks (fun he => hne he.symm)) hexp huid
        · exact ih _ _ _ _ hnd' h1 hks hexp huid

end VoraHub

namespace VoraHub

theorem fallbackPhase_keys_mono (s : Store) (uid tag : String) (now : Nat)
    (ks : List String) (ops : List BatchOp) {k : String} (h : k ∈ ks) :
    k ∈ (fallbackPhase s uid tag now ks ops).1 := by
  unfold fallbackPhase
  exact processFallbackDocs_keys_mono _ _ _ _ _ _
    (processFallbackDocs_keys_mono _ _ _ _ _ _ h)

theorem fallbackPhase_ops_mono (s : Store) (uid tag : String) (now : Nat)
    (ks : List String) (ops : List BatchOp) {op : BatchOp} (h : op ∈ ops) :
    op ∈ (fallbackPhase s uid tag now ks ops).2 := by
  unfold fallbackPhase
  exact processFallbackDocs_ops_mono _ _ _ _ _ _
    (processFallbackDocs_ops_mono _ _ _ _ _ _ h)

theorem whitelistPhase_keys_mono (s : Store) (uid tag : String) (now : Nat)
    (ks : List String) (ops : List BatchOp) {k : String} (h : k ∈ ks) :
    k ∈ (whitelistPhase s uid tag now ks ops).1 := by
  unfold whitelistPhase
  split
  · exact h
  · split
    · exact h
    · split
      · split
        · exact List.mem_append_left _ h
        · split
          · exact List.mem_append_left _ h
          · exact List.mem_append_left _ h
      · exact h

theorem whitelistPhase_ops_mono (s : Store) (uid tag : String) (now : Nat)
    (ks : List String) (ops : List BatchOp) {op : BatchOp} (h : op ∈ ops) :
    op ∈ (whitelistPhase s uid tag now ks ops).2 := by
  unfold whitelistPhase
  split
  · exact h
  · split
    · exact h
    · split
      · split
        · exact List.mem_append_left _ h
        · split
          · exact List.mem_append_left _ h
          · exact h
      · exact h

/-- The whitelist branch adds no key other than the grant's linked key. -/
theorem whitelistPhase_not_mem (s : Store) (uid tag : String) (now : Nat)
    (ks : List String) (ops : List BatchOp) {k : String} (h : k ∉ ks)
    (hg : ∀ g, alookup s.whitelist uid = some g → g.key ≠ some k) :
    k ∉ (whitelistPhase s uid tag now ks ops).1 := by
  unfold whitelistPhase
  split
  · exact h
  · rename_i g hgl
    split
    · exact h
    · rename_i wk hwk
      have hne : k ≠ wk := by
        intro he
        exact hg g hgl (by rw [hwk, he])
      have hnotapp : k ∉ ks ++ [wk] := by
        intro hm
        rcases List.mem_append.mp hm with h1 | h1
        · exact h h1
        · exact hne (by simpa using h1)
      split
      · split
        · exact hnotapp
        · split
          · exact hnotapp
          · exact hnotapp
      · exact h

/-- Whitelist self-repair: a dangling grant adds its key and queues the
materializing create. -/
theorem whitelistPhase_dangling (s : Store) (uid tag : String) (now : Nat)
    (ks : List String) (ops : List BatchOp) {g : WhitelistGrant} {wk : String}
    (hgl : alookup s.whitelist uid = some g) (hwk : g.key = some wk)
    (hne : wk ≠ "") (hnotin : wk ∉ ks) (habs : alookup s.keys wk = none) :
    wk ∈ (whitelistPhase s uid tag now ks ops).1 ∧
      BatchOp.setKey wk (whitelistKeyData uid tag now) ∈
        (whitelistPhase s uid tag now ks ops).2 := by
  unfold whitelistPhase
  rw [hgl]
  simp only [hwk]
  rw [if_pos ⟨hne, hnotin⟩, habs]
  constructor
  · exact List.mem_append_right _ (by simp)
  · exact List.mem_append_right _ (by simp)

/-- With every failure flag off, `refreshUserKeys` succeeds and returns the
key set and operation list of `refreshCompute`, overwriting the cache entry. -/
theorem refreshUserKeys_flags_off (s : Store) (uid tag : String)
    (isBackground : Bool) (now : Nat) (cache : Cache)
    (h1 : s.failIdentityQuery = false) (h2 : s.failWhitelistGet = false)
    (h3 : s.failFallbackQuery = false) (h4 : s.failKeyDocGet = false)
    (h5 : s.failBatchCommit = false) :
    (refreshUserKeys s uid tag isBackground now cache).result =
      .ok (refreshCompute s uid tag isBackground now).1 ∧
    (refreshUserKeys s uid tag isBackground now cache).ops =
      (refreshCompute s uid tag isBackground now).2 ∧
    (refreshUserKeys s uid tag isBackground now cache).cache =
      cacheSet cache uid
        { keys := (refreshCompute s uid tag isBackground now).1
          expires := now + CACHE_DURATION
          lastRefresh := now } := by
  unfold refreshUserKeys refreshCompute
  simp [h1, h2, h3, h4, h5]

/-- Every error exit of `refreshUserKeys` leaves the cache untouched. -/
theorem refreshUserKeys_error_cache (s : Store) (uid tag : String)
    (isBackground : Bool) (now : Nat) (cache : Cache) (e : Err)
    (h : (refreshUserKeys s uid tag isBackground now cache).result = .error e) :
    (refreshUserKeys s uid tag isBackground now cache).cache = cache := by
  simp only [refreshUserKeys] at h ⊢
  repeat' split
  all_goals first | rfl | simp_all

end VoraHub

namespace VoraHub

theorem alookup_eq_none_not_mem {β : Type} {l : List (String × β)} {k : String}
    (h : alookup l k = none) : ∀ b, (k, b) ∉ l := by
  induction l with
  | nil => intro b hb; simp at hb
  | cons hd t ih =>
    intro b hb
    obtain ⟨a, b0⟩ := hd
    unfold alookup at h
    split at h
    · exact Option.noConfusion h
    · rename_i hne
      rcases List.mem_cons.mp hb with h1 | h1
      · exact hne (congrArg Prod.fst h1).symm
      · exact ih h b h1

theorem nodup_keys_unique {β : Type} {l : List (String × β)} {k : String}
    {d d' : β} (hnd : (l.map Prod.fst).Nodup) (h : (k, d) ∈ l)
    (h' : (k, d') ∈ l) : d = d' := by
  induction l with
  | nil => simp at h
  | cons hd t ih =>
    obtain ⟨a, b⟩ := hd
    have hnd' : (∀ x : β, (a, x) ∉ t) ∧ (t.map Prod.fst).Nodup := by
      simpa using hnd
    rcases List.mem_cons.mp h with h1 | h1 <;> rcases List.mem_cons.mp h' with h2 | h2
    · have e1 := (Prod.mk.injEq .. ▸ h1).2
      have e2 := (Prod.mk.injEq .. ▸ h2).2
      exact e1.trans e2.symm
    · exfalso
      have ha : a = k := (Prod.mk.injEq .. ▸ h1).1.symm
      subst ha
      exact hnd'.1 d' h2
    · exfalso
      have ha : a = k := (Prod.mk.injEq .. ▸ h2).1.symm
      subst ha
      exact hnd'.1 d h1
    · exact ih hnd'.2 h1 h2

theorem mem_of_mem_identityDocs {s : Store} {uid k : String} {d : KeyData}
    (h : (k, d) ∈ identityDocs s uid) : (k, d) ∈ s.keys :=
  List.mem_of_mem_filter h

theorem mem_identityDocs {s : Store} {uid k : String} {d : KeyData}
    (h : (k, d) ∈ s.keys) (hu : d.userId = some uid) :
    (k, d) ∈ identityDocs s uid := by
  unfold identityDocs
  exact List.mem_filter.mpr ⟨h, by simpa using hu⟩

theorem mem_of_mem_tagDocs {s : Store} {v k : String} {d : KeyData}
    (h : (k, d) ∈ tagDocs s v) : (k, d) ∈ s.keys :=
  List.mem_of_mem_filter (List.take_subset _ _ h)

theorem tagDocs_fst_nodup {s : Store} (v : String)
    (hnd : (s.keys.map Prod.fst).Nodup) : ((tagDocs s v).map Prod.fst).Nodup := by
  refine List.Nodup.sublist ?_ hnd
  exact List.Sublist.map Prod.fst
    ((List.take_sublist _ _).trans (List.filter_sublist _))

theorem identityDocs_eq_nil {s : Store} {uid : String}
    (h : ∀ k d, (k, d) ∈ s.keys → d.userId ≠ some uid) :
    identityDocs s uid = [] := by
  unfold identityDocs
  refine List.filter_eq_nil.mpr ?_
  intro p hp
  simpa using h p.1 p.2 hp

theorem tagDocs_eq_nil {s : Store} {v : String}
    (h : ∀ k d, (k, d) ∈ s.keys → d.usedByDiscord ≠ some v) :
    tagDocs s v = [] := by
  unfold tagDocs
  have : s.keys.filter (fun p => p.2.usedByDiscord = some v) = [] := by
    refine List.filter_eq_nil.mpr ?_
    intro p hp
    simpa using h p.1 p.2 hp
  rw [this]
  rfl

theorem erase_append_singleton {q : List String} {u : String} (h : u ∉ q) :
    (q ++ [u]).erase u = q := by
  induction q with
  | nil => simp [List.erase_cons]
  | cons a t ih =>
    have hne : a ≠ u := by
      intro he
      exact h (he ▸ List.mem_cons_self a t)
    have hmem : u ∉ t := fun hm => h (List.mem_cons_of_mem _ hm)
    simp only [List.cons_append, List.erase_cons]
    rw [if_neg (by simpa using hne), ih hmem]

end VoraHub

namespace VoraHub

theorem mem_map_fst_exists {β : Type} {l : List (String × β)} {k : String}
    (h : k ∈ l.map Prod.fst) : ∃ b, (k, b) ∈ l := by
  obtain ⟨⟨a, b⟩, hp, hfst⟩ := List.mem_map.mp h
  cases hfst
  exact ⟨b, hp⟩

/-- Any key produced by the fallback phase is either carried over or the id
of some store document. -/
theorem fallbackPhase_keys_subset (s : Store) (uid tag : String) (now : Nat)
    (ks : List String) (ops : List BatchOp) {k : String}
    (h : k ∈ (fallbackPhase s uid tag now ks ops).1) :
    k ∈ ks ∨ ∃ d, (k, d) ∈ s.keys := by
  unfold fallbackPhase at h
  rcases processFallbackDocs_keys_subset _ _ _ _ _ _ h with h1 | h1
  · rcases processFallbackDocs_keys_subset _ _ _ _ _ _ h1 with h2 | h2
    · exact Or.inl h2
    · obtain ⟨d, hd⟩ := mem_map_fst_exists h2
      exact Or.inr ⟨d, mem_of_mem_tagDocs hd⟩
  · obtain ⟨d, hd⟩ := mem_map_fst_exists h1
    exact Or.inr ⟨d, mem_of_mem_tagDocs hd⟩

/-- Any key produced by the identity phase is the id of some store document. -/
theorem processIdDocs_keys_source (s : Store) (uid tag : String) (now : Nat)
    {k : String} (h : k ∈ (processIdDocs tag now (identityDocs s uid) [] []).1) :
    ∃ d, (k, d) ∈ s.keys := by
  rcases processIdDocs_keys_subset _ _ _ _ _ _ h with h1 | h1
  · simp at h1
  · obtain ⟨d, hd⟩ := mem_map_fst_exists h1
    exact ⟨d, mem_of_mem_identityDocs hd⟩

end VoraHub

namespace VoraHub

set_option maxRecDepth 10000 in
/-- C7: submitting 1000 deferred operations with the chunk ceiling of 450
commits them in exactly 3 chunks of sizes 450, 450 and 100 covering all
1000 operations in order, and the call reports 1000 operations committed in
3 batches; an empty operation list is a no-op with zero chunks. -/
theorem claim_C7_batch_chunking :
    (safeBatchChunks (List.range 1000)).map List.length = [450, 450, 100] ∧
    (safeBatchChunks (List.range 1000)).flatten = List.range 1000 ∧
    safeBatchCommitReport (List.range 1000) = (3, 1000) ∧
    safeBatchChunks ([] : List Nat) = [] ∧
    safeBatchCommitReport ([] : List Nat) = (0, 0) :=
  ⟨rfl, rfl, rfl, rfl, rfl⟩

/-- C9 counterexample: for a bound key whose record has no `usedByDiscord`
display label, the user-visible already-bound message exposes the holder's
raw identity (`userId`) itself, so the message does not reveal "only the
display label". -/
theorem claim_C9_counterexample :
    redeemBoundMessage { userId := some "987654321098765432", usedByDiscord := none } =
      "❌ Key sudah dipakai oleh **987654321098765432**!" ∧
    ({ userId := some "987654321098765432", usedByDiscord := none : KeyData }).userId =
      some "987654321098765432" :=
  ⟨rfl, rfl⟩

/-- C9 amended: the already-bound message shows the holder's display label
when it is present and nonempty; when it is absent it falls back to the raw
identity, and to "Unknown" when both are falsy. -/
theorem claim_C9_amended (d : KeyData) :
    (∀ s, d.usedByDiscord = some s → s ≠ "" →
      redeemBoundMessage d = "❌ Key sudah dipakai oleh **" ++ s ++ "**!") ∧
    (optTruthy d.usedByDiscord = false → ∀ u, d.userId = some u → u ≠ "" →
      redeemBoundMessage d = "❌ Key sudah dipakai oleh **" ++ u ++ "**!") ∧
    (optTruthy d.usedByDiscord = false → optTruthy d.userId = false →
      redeemBoundMessage d = "❌ Key sudah dipakai oleh **Unknown**!") := by
  refine ⟨?_, ?_, ?_⟩
  · intro s hs hne
    unfold redeemBoundMessage redeemBoundHolder
    rw [hs]
    simp [hne]
  · intro hfal u hu hune
    unfold redeemBoundMessage redeemBoundHolder
    cases hdb : d.usedByDiscord with
    | none => rw [hu]; simp [hune]
    | some sdb =>
      rw [hdb] at hfal
      unfold optTruthy at hfal
      simp at hfal
      subst hfal
      rw [hu]
      simp [hune]
  · intro hfal1 hfal2
    unfold redeemBoundMessage redeemBoundHolder
    cases hdb : d.usedByDiscord with
    | none =>
      cases hdu : d.userId with
      | none => simp
      | some u =>
        rw [hdu] at hfal2
        unfold optTruthy at hfal2
        simp at hfal2
        subst hfal2
        simp
    | some sdb =>
      rw [hdb] at hfal1
      unfold optTruthy at hfal1
      simp at hfal1
      subst hfal1
      cases hdu : d.userId with
      | none => simp
      | some u =>
        rw [hdu] at hfal2
        unfold optTruthy at hfal2
        simp at hfal2
        subst hfal2
        simp

/-- C9 amended, witness at a concrete bound record. -/
theorem claim_C9_amended_witness :
    redeemBoundMessage { usedByDiscord := some "alice", userId := some "111" } =
      "❌ Key sudah dipakai oleh **alice**!" :=
  (claim_C9_amended { usedByDiscord := some "alice", userId := some "111" }).1
    "alice" rfl (by decide)

/-- C6: a background refresh for an identity already in flight returns
immediately without touching anything; otherwise the in-flight marker is
always released, the refresh runs, and a swallowed (logged) failure leaves
the cache unchanged — the call itself never returns an error. -/
theorem claim_C6_background_swallow (s : Store) (uid tag : String) (now : Nat)
    (cache : Cache) (queue : List String) :
    (uid ∈ queue →
      refreshUserKeysBackground s uid tag now cache queue =
        { cache := cache, queue := queue, started := false, errorLogged := false }) ∧
    (uid ∉ queue →
      uid ∉ (refreshUserKeysBackground s uid tag now cache queue).queue ∧
      (refreshUserKeysBackground s uid tag now cache queue).started = true ∧
      ((refreshUserKeysBackground s uid tag now cache queue).errorLogged = true →
        (refreshUserKeysBackground s uid tag now cache queue).cache = cache)) := by
  constructor
  · intro h
    unfold refreshUserKeysBackground
    rw [if_pos h]
  · intro h
    unfold refreshUserKeysBackground
    rw [if_neg h]
    refine ⟨?_, rfl, ?_⟩
    · simpa [erase_append_singleton h] using h
    · intro hlog
      cases hres : (refreshUserKeys s uid tag true now cache).result with
      | ok ks => simp [hres] at hlog
      | error e =>
        simpa using refreshUserKeys_error_cache s uid tag true now cache e hres

/-- C6 witness: a failing background refresh at a concrete store swallows
the error, releases the marker and leaves the cache unchanged. -/
theorem claim_C6_background_swallow_witness :
    "U6" ∉ (refreshUserKeysBackground { failIdentityQuery := true } "U6" "t6" 5 [] []).queue ∧
    (refreshUserKeysBackground { failIdentityQuery := true } "U6" "t6" 5 [] []).started = true ∧
    (refreshUserKeysBackground { failIdentityQuery := true } "U6" "t6" 5 [] []).cache = [] := by
  have h := (claim_C6_background_swallow { failIdentityQuery := true } "U6" "t6" 5 [] []).2
    (by simp)
  exact ⟨h.1, h.2.1, h.2.2 rfl⟩

/-- C5: if a store query during a refresh fails, the error propagates to the
caller (`result` is the error) and the cache entry is exactly what it was
before the call. -/
theorem claim_C5_failure_leaves_cache (s : Store) (uid tag : String)
    (isBackground : Bool) (now : Nat) (cache : Cache) :
    (∀ e, (refreshUserKeys s uid tag isBackground now cache).result = .error e →
      (refreshUserKeys s uid tag isBackground now cache).cache = cache) ∧
    (s.failIdentityQuery = true →
      (refreshUserKeys s uid tag isBackground now cache).result =
        .error .storeFailure) := by
  constructor
  · exact refreshUserKeys_error_cache s uid tag isBackground now cache
  · intro h
    unfold refreshUserKeys
    rw [if_pos (by simp [h])]

/-- C5 witness: a concrete failing identity query propagates and leaves a
concrete nonempty cache unchanged. -/
theorem claim_C5_failure_leaves_cache_witness :
    (refreshUserKeys { failIdentityQuery := true } "U5" "t5" false 7
      [("X", { keys := ["A"], expires := 9, lastRefresh := 3 })]).result =
        .error .storeFailure ∧
    (refreshUserKeys { failIdentityQuery := true } "U5" "t5" false 7
      [("X", { keys := ["A"], expires := 9, lastRefresh := 3 })]).cache =
        [("X", { keys := ["A"], expires := 9, lastRefresh := 3 })] := by
  have h := claim_C5_failure_leaves_cache { failIdentityQuery := true } "U5" "t5" false 7
    [("X", { keys := ["A"], expires := 9, lastRefresh := 3 })]
  have he := h.2 rfl
  exact ⟨he, h.1 _ he⟩

end VoraHub

namespace VoraHub

/-- A cache hit inside both windows serves the entry with no I/O and no
background trigger. -/
theorem getUserActiveKeys_cache_hit (s : Store) (uid tag : String) (n : Nat)
    (c : Cache) (e : CacheEntry) (hc : alookup c uid = some e)
    (hn : n < e.expires) (hsoft : n - e.lastRefresh ≤ CACHE_SOFT_REFRESH) :
    getUserActiveKeys s uid tag false n c =
      { result := .ok e.keys, cache := c, roundTrips := 0, bgTriggered := false } := by
  unfold getUserActiveKeys
  rw [if_neg (by simp)]
  rw [hc]
  have hnot : ¬ (CACHE_SOFT_REFRESH < n - e.lastRefresh) := Nat.not_lt.mpr hsoft
  simp [hn, hnot]

/-- C4: with a non-hard-expired cache entry whose last refresh is inside the
soft-refresh window, two consecutive `forceFresh = false` calls return the
identical key set, issue zero (hence at most one) store round-trips, and
spawn no background refresh. -/
theorem claim_C4_idempotent_soft_window (s : Store) (uid tag : String)
    (now1 now2 : Nat) (cache : Cache) (e : CacheEntry)
    (hc : alookup cache uid = some e)
    (h1 : now1 < e.expires) (h2 : now2 < e.expires)
    (hs1 : now1 - e.lastRefresh ≤ CACHE_SOFT_REFRESH)
    (hs2 : now2 - e.lastRefresh ≤ CACHE_SOFT_REFRESH) :
    (getUserActiveKeys s uid tag false now1 cache).result = .ok e.keys ∧
    (getUserActiveKeys s uid tag false now2
      (getUserActiveKeys s uid tag false now1 cache).cache).result = .ok e.keys ∧
    (getUserActiveKeys s uid tag false now1 cache).roundTrips +
      (getUserActiveKeys s uid tag false now2
        (getUserActiveKeys s uid tag false now1 cache).cache).roundTrips ≤ 1 ∧
    (getUserActiveKeys s uid tag false now1 cache).bgTriggered = false ∧
    (getUserActiveKeys s uid tag false now2
      (getUserActiveKeys s uid tag false now1 cache).cache).bgTriggered = false := by
  have r1 := getUserActiveKeys_cache_hit s uid tag now1 cache e hc h1 hs1
  have r2 := getUserActiveKeys_cache_hit s uid tag now2 cache e hc h2 hs2
  rw [r1]
  simp only []
  rw [r2]
  simp

/-- C4 witness at a concrete cached entry inside both windows. -/
theorem claim_C4_idempotent_soft_window_witness :
    (getUserActiveKeys {} "U4" "t4" false 1000
      [("U4", { keys := ["A4"], expires := 2000, lastRefresh := 950 })]).result =
        .ok ["A4"] ∧
    (getUserActiveKeys {} "U4" "t4" false 1001
      (getUserActiveKeys {} "U4" "t4" false 1000
        [("U4", { keys := ["A4"], expires := 2000, lastRefresh := 950 })]).cache).result =
        .ok ["A4"] := by
  have h := claim_C4_idempotent_soft_window {} "U4" "t4" 1000 1001
    [("U4", { keys := ["A4"], expires := 2000, lastRefresh := 950 })]
    { keys := ["A4"], expires := 2000, lastRefresh := 950 }
    rfl (by decide) (by decide) (by decide) (by decide)
  exact ⟨h.1, h.2.1⟩

end VoraHub

namespace VoraHub

/-- C3 counterexample: for an identity with no Key Records, Whitelist Grant
or cache entry, `getUserActiveKeys` does return an empty sequence but
performs two store round-trips (the identity+whitelist parallel read, then
the alias fallback parallel read), not exactly one. -/
theorem claim_C3_counterexample :
    (getUserActiveKeys {} "U7" "tag7" false 1000 []).result = .ok [] ∧
    (getUserActiveKeys {} "U7" "tag7" false 1000 []).roundTrips = 2 ∧
    (getUserActiveKeys {} "U7" "tag7" false 1000 []).roundTrips ≠ 1 :=
  ⟨rfl, rfl, by decide⟩

/-- C3 amended: for an identity with no Key Records (by identity, tag or bare
username), no Whitelist Grant and no cache entry, `getUserActiveKeys`
returns an empty sequence and performs exactly two store round-trips —
the identity+whitelist parallel read, then the alias fallback parallel
read triggered by the empty result. -/
theorem claim_C3_empty_identity (s : Store) (uid tag : String) (now : Nat)
    (cache : Cache)
    (hf1 : s.failIdentityQuery = false) (hf2 : s.failWhitelistGet = false)
    (hf3 : s.failFallbackQuery = false) (hf4 : s.failKeyDocGet = false)
    (hf5 : s.failBatchCommit = false)
    (hmiss : alookup cache uid = none)
    (hnokeys : ∀ k d, (k, d) ∈ s.keys →
      d.userId ≠ some uid ∧ d.usedByDiscord ≠ some tag ∧
        d.usedByDiscord ≠ some (usernameOf tag))
    (hwl : alookup s.whitelist uid = none) :
    (getUserActiveKeys s uid tag false now cache).result = .ok [] ∧
    (getUserActiveKeys s uid tag false now cache).roundTrips = 2 := by
  have hid : identityDocs s uid = [] :=
    identityDocs_eq_nil (fun k d h => (hnokeys k d h).1)
  have ht1 : tagDocs s tag = [] :=
    tagDocs_eq_nil (fun k d h => (hnokeys k d h).2.1)
  have ht2 : tagDocs s (usernameOf tag) = [] :=
    tagDocs_eq_nil (fun k d h => (hnokeys k d h).2.2)
  unfold getUserActiveKeys refreshedGet
  rw [hmiss]
  simp only [Bool.false_eq_true, if_false]
  unfold refreshUserKeys
  rw [hid]
  simp [hf1, hf2, hf3, hf4, hf5, fallbackPhase, ht1, ht2, processFallbackDocs,
    processIdDocs, whitelistPhase, needsKeyDoc, hwl]

/-- C3 amended, witness at the empty store. -/
theorem claim_C3_empty_identity_witness :
    (getUserActiveKeys {} "U7b" "tag7b" false 42 []).result = .ok [] ∧
    (getUserActiveKeys {} "U7b" "tag7b" false 42 []).roundTrips = 2 :=
  claim_C3_empty_identity {} "U7b" "tag7b" 42 [] rfl rfl rfl rfl rfl rfl
    (by intro k d hd; simp at hd) rfl

end VoraHub

namespace VoraHub

/-- C10: a non-whitelisted Key Record whose `expiresAt` converts to exactly
0 epoch milliseconds is classified as not expired (the JS conjunction
`expiryTime && expiryTime < Date.now()` is falsy at 0), so its key is
included in the computed active key set although its expiry time is in the
past. -/
theorem claim_C10_zero_epoch_included (s : Store) (uid tag : String)
    (isBackground : Bool) (now : Nat) (cache : Cache) (k : String) (d : KeyData)
    (hf1 : s.failIdentityQuery = false) (hf2 : s.failWhitelistGet = false)
    (hf3 : s.failFallbackQuery = false) (hf4 : s.failKeyDocGet = false)
    (hf5 : s.failBatchCommit = false)
    (hmem : (k, d) ∈ s.keys) (huid : d.userId = some uid)
    (hwl : d.whitelisted = false) (hexp : d.expiresAt = some 0)
    (hnow : 0 < now) :
    isKeyExpiredD d now = false ∧
    (refreshUserKeys s uid tag isBackground now cache).result =
      .ok (refreshCompute s uid tag isBackground now).1 ∧
    k ∈ (refreshCompute s uid tag isBackground now).1 := by
  have hne : isKeyExpiredD d now = false := by
    unfold isKeyExpiredD
    rw [hexp, if_neg (by simp [hwl])]
    simp
  refine ⟨hne,
    (refreshUserKeys_flags_off s uid tag isBackground now cache hf1 hf2 hf3 hf4 hf5).1,
    ?_⟩
  have hk0 : k ∈ (processIdDocs tag now (identityDocs s uid) [] []).1 :=
    processIdDocs_mem_incl _ _ _ _ _ _ _ (mem_identityDocs hmem huid) (Or.inr hne)
  simp only [refreshCompute]
  apply whitelistPhase_keys_mono
  split
  · exact fallbackPhase_keys_mono _ _ _ _ _ _ hk0
  · exact hk0

/-- C10 witness at a concrete store with a zero-epoch expiry. -/
theorem claim_C10_zero_epoch_included_witness :
    isKeyExpiredD { userId := some "U10", expiresAt := some 0 } 1000 = false ∧
    "KZ" ∈ (refreshCompute
      { keys := [("KZ", { userId := some "U10", expiresAt := some 0 })] }
      "U10" "t10" false 1000).1 := by
  have h := claim_C10_zero_epoch_included
    { keys := [("KZ", { userId := some "U10", expiresAt := some 0 })] }
    "U10" "t10" false 1000 [] "KZ" { userId := some "U10", expiresAt := some 0 }
    rfl rfl rfl rfl rfl (by simp) rfl rfl rfl (by decide)
  exact ⟨h.1, h.2.2⟩

end VoraHub

namespace VoraHub

/-- C8: a Whitelist Grant whose linked key has no document in the `keys`
collection causes a refresh to include exactly that key string in the
returned set and to queue a create operation materializing a permanent
(`expiresAt = null`) whitelist-flagged Key Record under that key string. -/
theorem claim_C8_whitelist_self_repair (s : Store) (uid tag : String)
    (isBackground : Bool) (now : Nat) (cache : Cache)
    (g : WhitelistGrant) (wk : String)
    (hf1 : s.failIdentityQuery = false) (hf2 : s.failWhitelistGet = false)
    (hf3 : s.failFallbackQuery = false) (hf4 : s.failKeyDocGet = false)
    (hf5 : s.failBatchCommit = false)
    (hg : alookup s.whitelist uid = some g) (hwk : g.key = some wk)
    (hne : wk ≠ "") (habs : alookup s.keys wk = none) :
    (refreshUserKeys s uid tag isBackground now cache).result =
      .ok (refreshCompute s uid tag isBackground now).1 ∧
    wk ∈ (refreshCompute s uid tag isBackground now).1 ∧
    BatchOp.setKey wk (whitelistKeyData uid tag now) ∈
      (refreshUserKeys s uid tag isBackground now cache).ops ∧
    (whitelistKeyData uid tag now).whitelisted = true ∧
    (whitelistKeyData uid tag now).expiresAt = none := by
  have hflags := refreshUserKeys_flags_off s uid tag isBackground now cache hf1 hf2 hf3 hf4 hf5
  have habs' : ∀ d, (wk, d) ∉ s.keys := alookup_eq_none_not_mem habs
  have hid : wk ∉ (processIdDocs tag now (identityDocs s uid) [] []).1 := by
    intro hm
    obtain ⟨d, hd⟩ := processIdDocs_keys_source s uid tag now hm
    exact habs' d hd
  have hfb : wk ∉
      (if (processIdDocs tag now (identityDocs s uid) [] []).1.isEmpty && !isBackground
        then fallbackPhase s uid tag now
          (processIdDocs tag now (identityDocs s uid) [] []).1
          (processIdDocs tag now (identityDocs s uid) [] []).2
        else processIdDocs tag now (identityDocs s uid) [] []).1 := by
    split
    · intro hm
      rcases fallbackPhase_keys_subset _ _ _ _ _ _ hm with h1 | h1
      · exact hid h1
      · obtain ⟨d, hd⟩ := h1
        exact habs' d hd
    · exact hid
  have hwl := whitelistPhase_dangling s uid tag now
    (if (processIdDocs tag now (identityDocs s uid) [] []).1.isEmpty && !isBackground
      then fallbackPhase s uid tag now
        (processIdDocs tag now (identityDocs s uid) [] []).1
        (processIdDocs tag now (identityDocs s uid) [] []).2
      else processIdDocs tag now (identityDocs s uid) [] []).1
    (if (processIdDocs tag now (identityDocs s uid) [] []).1.isEmpty && !isBackground
      then fallbackPhase s uid tag now
        (processIdDocs tag now (identityDocs s uid) [] []).1
        (processIdDocs tag now (identityDocs s uid) [] []).2
      else processIdDocs tag now (identityDocs s uid) [] []).2
    hg hwk hne hfb habs
  refine ⟨hflags.1, ?_, ?_, rfl, rfl⟩
  · simpa only [refreshCompute] using hwl.1
  · rw [hflags.2.1]
    simpa only [refreshCompute] using hwl.2

/-- C8 witness at a concrete store with a dangling whitelist grant. -/
theorem claim_C8_whitelist_self_repair_witness :
    "WK8" ∈ (refreshCompute { whitelist := [("U8", { key := some "WK8" })] }
      "U8" "t8" false 50).1 ∧
    BatchOp.setKey "WK8" (whitelistKeyData "U8" "t8" 50) ∈
      (refreshUserKeys { whitelist := [("U8", { key := some "WK8" })] }
        "U8" "t8" false 50 []).ops := by
  have h := claim_C8_whitelist_self_repair
    { whitelist := [("U8", { key := some "WK8" })] } "U8" "t8" false 50 []
    { key := some "WK8" } "WK8" rfl rfl rfl rfl rfl rfl rfl (by decide) rfl
  exact ⟨h.2.1, h.2.2.1⟩

end VoraHub

namespace VoraHub

/-- C1 counterexample: a record with the whitelist flag false and a non-null
past `expiresAt` — classified as expired by `isKeyExpiredD` itself — is
nevertheless included in the computed active key set, because the Whitelist
Grant branch adds its linked key without any expiry check. -/
theorem claim_C1_counterexample :
    c1CexData.whitelisted = false ∧
    c1CexData.expiresAt = some 500 ∧ (500 : Nat) < 1000 ∧
    isKeyExpiredD c1CexData 1000 = true ∧
    (refreshUserKeys c1CexStore "U1" "alice" false 1000 []).result = .ok ["KX"] :=
  ⟨rfl, rfl, by decide, rfl, rfl⟩

/-- C1 amended: during a refresh, every identity-bound record with the
whitelist flag true is included regardless of expiry; a record with the
whitelist flag false and a nonzero past `expiresAt` is excluded from the
identity and alias phases and so never appears — unless the identity's
Whitelist Grant links exactly that key (and a zero `expiresAt` counts as
not expired, see the zero-epoch claim). -/
theorem claim_C1_expiry_correctness (s : Store) (uid tag : String)
    (isBackground : Bool) (now : Nat) (cache : Cache)
    (hf1 : s.failIdentityQuery = false) (hf2 : s.failWhitelistGet = false)
    (hf3 : s.failFallbackQuery = false) (hf4 : s.failKeyDocGet = false)
    (hf5 : s.failBatchCommit = false) :
    (refreshUserKeys s uid tag isBackground now cache).result =
      .ok (refreshCompute s uid tag isBackground now).1 ∧
    (∀ k d, (k, d) ∈ s.keys → d.userId = some uid → d.whitelisted = true →
      k ∈ (refreshCompute s uid tag isBackground now).1) ∧
    ((s.keys.map Prod.fst).Nodup →
      ∀ k d t, (k, d) ∈ s.keys → d.whitelisted = false → d.expiresAt = some t →
        0 < t → t < now →
        (∀ g, alookup s.whitelist uid = some g → g.key ≠ some k) →
        k ∉ (refreshCompute s uid tag isBackground now).1) := by
  refine ⟨(refreshUserKeys_flags_off s uid tag isBackground now cache hf1 hf2 hf3 hf4 hf5).1,
    ?_, ?_⟩
  · intro k d hmem huid hwl
    have hk0 : k ∈ (processIdDocs tag now (identityDocs s uid) [] []).1 :=
      processIdDocs_mem_incl _ _ _ _ _ _ _ (mem_identityDocs hmem huid) (Or.inl hwl)
    simp only [refreshCompute]
    apply whitelistPhase_keys_mono
    split
    · exact fallbackPhase_keys_mono _ _ _ _ _ _ hk0
    · exact hk0
  · intro hnd k d t hmem hwl hexp ht htn hg
    have hexpired : isKeyExpiredD d now = true := by
      unfold isKeyExpiredD
      rw [if_neg (by simp [hwl]), hexp]
      simp [Nat.pos_iff_ne_zero.mp ht, htn]
    have hexn : d.expiresAt ≠ none := by rw [hexp]; simp
    have hallid : ∀ d', (k, d') ∈ identityDocs s uid →
        d'.whitelisted = false ∧ isKeyExpiredD d' now = true ∧ d'.expiresAt ≠ none := by
      intro d' h'
      have he : d' = d := nodup_keys_unique hnd (mem_of_mem_identityDocs h') hmem
      subst he
      exact ⟨hwl, hexpired, hexn⟩
    have halltag : ∀ v d', (k, d') ∈ tagDocs s v → isKeyExpiredD d' now = true := by
      intro v d' h'
      have he : d' = d := nodup_keys_unique hnd (mem_of_mem_tagDocs h') hmem
      subst he
      exact hexpired
    have hnotid : k ∉ (processIdDocs tag now (identityDocs s uid) [] []).1 :=
      processIdDocs_not_mem _ _ _ _ _ _ (by simp) hallid
    have hnotfb : k ∉
        (if (processIdDocs tag now (identityDocs s uid) [] []).1.isEmpty && !isBackground
          then fallbackPhase s uid tag now
            (processIdDocs tag now (identityDocs s uid) [] []).1
            (processIdDocs tag now (identityDocs s uid) [] []).2
          else processIdDocs tag now (identityDocs s uid) [] []).1 := by
      split
      · unfold fallbackPhase
        refine processFallbackDocs_not_mem _ _ _ _ _ _ ?_ (fun d' h' => halltag _ d' h')
        exact processFallbackDocs_not_mem _ _ _ _ _ _ hnotid (fun d' h' => halltag _ d' h')
      · exact hnotid
    simp only [refreshCompute]
    exact whitelistPhase_not_mem _ _ _ _ _ _ hnotfb hg

/-- C1 amended witness: at a concrete store, the whitelisted record with
past expiry is included and the plain expired record is excluded. -/
theorem claim_C1_expiry_correctness_witness :
    "KW1" ∈ (refreshCompute c1AmStore "UA" "ta" false 1000).1 ∧
    "KE1" ∉ (refreshCompute c1AmStore "UA" "ta" false 1000).1 := by
  have h := claim_C1_expiry_correctness c1AmStore "UA" "ta" false 1000 []
    rfl rfl rfl rfl rfl
  refine ⟨h.2.1 "KW1" c1AmWlData (by simp [c1AmStore]) rfl rfl, ?_⟩
  refine h.2.2 (by decide) "KE1" c1AmExpData 5 (by simp [c1AmStore]) rfl rfl
    (by decide) (by decide) ?_
  intro g hg
  have hnone : alookup c1AmStore.whitelist "UA" = none := rfl
  rw [hnone] at hg
  exact Option.noConfusion hg

end VoraHub

namespace VoraHub

/-- C2 counterexample: when the identity-keyed query already finds a key,
the alias fallback query never runs, so a non-expired record whose
`usedByDiscord` equals the supplied tag is left out of the returned set. -/
theorem claim_C2_counterexample :
    isKeyExpiredD c2CexTagData 1000 = false ∧
    c2CexTagData.usedByDiscord = some "bob#1" ∧
    (refreshUserKeys c2CexStore "U2" "bob#1" false 1000 []).result = .ok ["K1"] ∧
    "K2" ∉ ["K1"] :=
  ⟨rfl, rfl, rfl, by decide⟩

/-- C2 amended: on a non-background refresh whose identity-keyed query
matches no record at all, every non-expired record among the first five
whose `usedByDiscord` equals the supplied tag, and every non-expired record
among the first five whose `usedByDiscord` equals the bare-username prefix
of the tag, is included in the returned key set, and when the record lacks
a `userId` a self-heal update binding the identity is queued. -/
theorem claim_C2_alias_fallback (s : Store) (uid tag : String) (now : Nat)
    (cache : Cache) (k : String) (d : KeyData)
    (hf1 : s.failIdentityQuery = false) (hf2 : s.failWhitelistGet = false)
    (hf3 : s.failFallbackQuery = false) (hf4 : s.failKeyDocGet = false)
    (hf5 : s.failBatchCommit = false)
    (hnd : (s.keys.map Prod.fst).Nodup)
    (hnoid : ∀ k' d', (k', d') ∈ s.keys → d'.userId ≠ some uid)
    (htag : (k, d) ∈ tagDocs s tag ∨ (k, d) ∈ tagDocs s (usernameOf tag))
    (hexp : isKeyExpiredD d now = false) :
    (refreshUserKeys s uid tag false now cache).result =
      .ok (refreshCompute s uid tag false now).1 ∧
    k ∈ (refreshCompute s uid tag false now).1 ∧
    (optTruthy d.userId = false →
      BatchOp.updateKey k { userId := some uid } ∈
        (refreshUserKeys s uid tag false now cache).ops) := by
  have hflags := refreshUserKeys_flags_off s uid tag false now cache hf1 hf2 hf3 hf4 hf5
  have hid : identityDocs s uid = [] :=
    identityDocs_eq_nil (fun k' d' h' => hnoid k' d' h')
  refine ⟨hflags.1, ?_, ?_⟩
  · simp only [refreshCompute, hid]
    simp only [processIdDocs]
    rw [if_pos (by simp)]
    apply whitelistPhase_keys_mono
    unfold fallbackPhase
    rcases htag with h | h
    · exact processFallbackDocs_keys_mono _ _ _ _ _ _
        (processFallbackDocs_mem_incl _ _ _ _ _ _ _ h hexp)
    · exact processFallbackDocs_mem_incl _ _ _ _ _ _ _ h hexp
  · intro huid
    rw [hflags.2.1]
    simp only [refreshCompute, hid]
    simp only [processIdDocs]
    rw [if_pos (by simp)]
    apply whitelistPhase_ops_mono
    unfold fallbackPhase
    have htagcase : (k, d) ∈ tagDocs s tag →
        BatchOp.updateKey k { userId := some uid } ∈
          (processFallbackDocs uid now (tagDocs s (usernameOf tag))
            (processFallbackDocs uid now (tagDocs s tag)
              ([] : List String) ([] : List BatchOp)).1
            (processFallbackDocs uid now (tagDocs s tag)
              ([] : List String) ([] : List BatchOp)).2).2 := by
      intro h
      exact processFallbackDocs_ops_mono _ _ _ _ _ _
        (processFallbackDocs_op _ _ _ _ _ _ _ (tagDocs_fst_nodup tag hnd) h
          (by simp) hexp huid)
    rcases htag with h | h
    · exact htagcase h
    · by_cases hk1 : k ∈ (processFallbackDocs uid now (tagDocs s tag)
          ([] : List String) ([] : List BatchOp)).1
      · rcases processFallbackDocs_keys_subset _ _ _ _ _ _ hk1 with h0 | h0
        · simp at h0
        · obtain ⟨d', hd'⟩ := mem_map_fst_exists h0
          have he : d' = d :=
            nodup_keys_unique hnd (mem_of_mem_tagDocs hd') (mem_of_mem_tagDocs h)
          subst he
          exact htagcase hd'
      · exact processFallbackDocs_op _ _ _ _ _ _ _
          (tagDocs_fst_nodup (usernameOf tag) hnd) h hk1 hexp huid

/-- C2 amended witness: both alias-only records at a concrete store — one
matching the full tag, one matching the bare username — are picked up by the
fallback and `userId`-binding self-heal updates are queued for both. -/
theorem claim_C2_alias_fallback_witness :
    "KW" ∈ (refreshCompute c2WitStore "UW" "carol#1" false 10).1 ∧
    "KV" ∈ (refreshCompute c2WitStore "UW" "carol#1" false 10).1 ∧
    BatchOp.updateKey "KW" { userId := some "UW" } ∈
      (refreshUserKeys c2WitStore "UW" "carol#1" false 10 []).ops ∧
    BatchOp.updateKey "KV" { userId := some "UW" } ∈
      (refreshUserKeys c2WitStore "UW" "carol#1" false 10 []).ops := by
  have hnoid : ∀ k' d', (k', d') ∈ c2WitStore.keys → d'.userId ≠ some "UW" := by
    intro k' d' h' hu
    have hk : k' = "KW" ∧ d' = c2WitData ∨ k' = "KV" ∧ d' = c2WitData2 := by
      simpa [c2WitStore] using h'
    rcases hk with ⟨_, hd⟩ | ⟨_, hd⟩ <;> rw [hd] at hu <;> exact Option.noConfusion hu
  have h1 := claim_C2_alias_fallback c2WitStore "UW" "carol#1" 10 [] "KW" c2WitData
    rfl rfl rfl rfl rfl (by decide) hnoid (Or.inl (by decide)) rfl
  have h2 := claim_C2_alias_fallback c2WitStore "UW" "carol#1" 10 [] "KV" c2WitData2
    rfl rfl rfl rfl rfl (by decide) hnoid (Or.inr (by decide)) rfl
  exact ⟨h1.2.1, h2.2.1, h1.2.2 rfl, h2.2.2 rfl⟩

end VoraHub
